import Mathlib

/-
Shallow embedding of draconic/types.py: the resource-bounded container layer
(approx_len_of, SafeList, SafeSet, SafeDict, the bounded str type) of the
draconic sandboxed evaluator.

Sandbox values are modelled by the inductive type Value (integers, text,
native lists).  Python equality (the == used by the `in` membership test on
the visited list, by set membership and by dict key lookup) is Value.pyEq.
Operations that can raise are modelled as functions returning an
Except DraconicError result together with the post-call container state,
mirroring in-place mutation: on a raise the returned state is the state the
container was left in at the moment the exception escaped.

Reference cycles cannot be represented by the inductive Value type, so the
size estimator is additionally embedded a second time over an explicit
object heap (Cell / Heap) with object identity = heap id, and with fuel,
since the source recursion is not structurally terminating on cyclic heaps.
-/

/-- Modelled from the spec: the exceptions module (draconic/exceptions.py) is
not under src/.  Per the spec's error-handling design there are two raisable
conditions, size-limit-exceeded (IterableTooLong) and feature-disallowed
(FeatureNotAvailable), each carrying a human-readable message, raised by
_raise_in_context exactly at the point of violation and propagating out of
the operation. -/
inductive DraconicError where
  | iterableTooLong (msg : String)
  | featureNotAvailable (msg : String)
  deriving DecidableEq, Repr

/-- The Draconic config object: the one ceiling consulted by every bounded
container (config.max_const_len). -/
structure Config where
  maxConstLen : Int
  deriving DecidableEq, Repr

/-- Sandbox values flowing through the bounded containers: numbers, text and
native lists.  (Enough to exercise every operation the claims mention.) -/
inductive Value where
  | int (n : Int)
  | str (s : String)
  | list (xs : List Value)

mutual

/-- Python == on values: ints by numeric value, strings by content, lists
elementwise after a length check, cross-kind comparisons are False. -/
def Value.pyEq : Value → Value → Bool
  | Value.int m, Value.int n => m == n
  | Value.str s, Value.str t => s == t
  | Value.list xs, Value.list ys => Value.pyEqList xs ys
  | _, _ => false

/-- Python == on lists of values: equal lengths and pairwise equal elements. -/
def Value.pyEqList : List Value → List Value → Bool
  | [], [] => true
  | x :: xs, y :: ys => Value.pyEq x y && Value.pyEqList xs ys
  | _, _ => false

end

/-- Python membership x in xs (identity or ==; for these value kinds identity
implies ==, so == alone is faithful). -/
def pyMem (v : Value) (xs : List Value) : Bool :=
  xs.any (fun w => Value.pyEq v w)

mutual

/-- One recursive call approx_len_of(child, visited) of the estimator on an
acyclic value: strings return their character count, non-iterables (ints)
return their length hint 0, a list returns its length hint plus the child
loop.  Returns the computed size together with the visited list as mutated
by the call (visited is shared by reference in the source). -/
def alStep : Value → List Value → Nat × List Value
  | Value.str s, vis => (s.length, vis)
  | Value.int _, vis => (0, vis)
  | Value.list xs, vis =>
    let r := alChildren xs vis
    (xs.length + r.1, r.2)

/-- The for-child loop of approx_len_of: a child already in visited (Python
in, i.e. equality-based membership) is skipped; otherwise its recursive
estimate is added and the child is appended to visited after its subtree
has been processed. -/
def alChildren : List Value → List Value → Nat × List Value
  | [], vis => (0, vis)
  | c :: cs, vis =>
    if pyMem c vis then alChildren cs vis
    else
      let rc := alStep c vis
      let rr := alChildren cs (rc.2 ++ [c])
      (rc.1 + rr.1, rr.2)

end

/-- approx_len_of(value) with visited=None: strings short-circuit to their
length; otherwise visited is initialised to [value] and the body runs.
(For a list the initial visited entry compares as the list itself, matching
the source, where visited starts as [obj].) -/
def approx_len_of : Value → Nat
  | Value.str s => s.length
  | Value.int _ => 0
  | Value.list xs => xs.length + (alChildren xs [Value.list xs]).1

/-- approx_len_of run over the element list of a set-like or list-like
container object whose own identity can never compare equal to a child
value (a set or UserList wrapper is == to no int/str/list child among
acyclic values), i.e. the traversal a fresh SafeSet construction performs:
length hint plus the child loop starting from an effectively empty visited
list. -/
def containerFreshLen (xs : List Value) : Nat :=
  xs.length + (alChildren xs []).1

/-- The inner per-entry work of approx_len_of on a native dict: the dict
iterates as (key, value) tuples; each tuple not already visited (tuple ==
only ever matches other tuples, value == only other values, so the one
Python visited list is faithfully split in two) contributes its length hint
2 plus the recursive estimates of its not-yet-visited key and value, and is
then marked visited. -/
def dictChildren :
    List (Value × Value) → List (Value × Value) → List Value →
    Nat × (List (Value × Value) × List Value)
  | [], tvis, vvis => (0, (tvis, vvis))
  | (k, v) :: rest, tvis, vvis =>
    if tvis.any (fun t => Value.pyEq k t.1 && Value.pyEq v t.2) then
      dictChildren rest tvis vvis
    else
      let rk := if pyMem k vvis then (0, vvis) else
        let r := alStep k vvis
        (r.1, r.2 ++ [k])
      let rv := if pyMem v rk.2 then (0, rk.2) else
        let r := alStep v rk.2
        (r.1, r.2 ++ [v])
      let rr := dictChildren rest (tvis ++ [(k, v)]) rv.2
      (2 + rk.1 + rv.1 + rr.1, rr.2)

/-- approx_len_of on a native dict: length hint (entry count, taken before
the items() view is substituted) plus the per-entry tuple contributions. -/
def dictApproxLen (entries : List (Value × Value)) : Nat :=
  entries.length + (dictChildren entries [] []).1

/-- Python dict d[k] = v on an association list: an existing key (by ==)
keeps its position and original key object, its value is replaced;
otherwise the pair is appended. -/
def assocSet : List (Value × Value) → Value → Value → List (Value × Value)
  | [], k, v => [(k, v)]
  | (k1, v1) :: rest, k, v =>
    if Value.pyEq k k1 then (k1, v) :: rest
    else (k1, v1) :: assocSet rest k v

/-- Native set insertion: adding an element already present (by ==) is a
no-op, otherwise it is appended. -/
def setInsert (xs : List Value) (v : Value) : List Value :=
  if pyMem v xs then xs else xs ++ [v]

/-- SafeList: a UserList subclass carrying the cached estimate
__approx_len__ (an Int: the source arithmetic can drive it negative). -/
structure SafeList where
  data : List Value
  cached : Int

/-- SafeList.__init__: the underlying data plus a freshly computed
__approx_len__ = approx_len_of(self); a UserList compares as its data, so
the traversal coincides with approx_len_of on the value list. -/
def mkSafeList (xs : List Value) : SafeList :=
  { data := xs, cached := (approx_len_of (Value.list xs) : Int) }

/-- SafeList.append: ceiling check (approx_len_of(self) hits the
__approx_len__ fast path, i.e. the cached value) with delta 1 before
mutation; on success the element is appended and the cache incremented. -/
def SafeList.append (cfg : Config) (l : SafeList) (obj : Value) :
    Except DraconicError Unit × SafeList :=
  if l.cached + 1 > cfg.maxConstLen then
    (Except.error (DraconicError.iterableTooLong "This list is too long"), l)
  else
    (Except.ok (), { data := l.data ++ [obj], cached := l.cached + 1 })

/-- SafeList.extend: delta = approx_len_of(iterable) (a native list
argument), checked before mutation. -/
def SafeList.extend (cfg : Config) (l : SafeList) (iterable : List Value) :
    Except DraconicError Unit × SafeList :=
  let otherLen : Int := approx_len_of (Value.list iterable)
  if l.cached + otherLen > cfg.maxConstLen then
    (Except.error (DraconicError.iterableTooLong "This list is too long"), l)
  else
    (Except.ok (), { data := l.data ++ iterable, cached := l.cached + otherLen })

/-- Python list * n: n copies of the list concatenated, empty for n <= 0. -/
def pyListMul (xs : List Value) (n : Int) : List Value :=
  (List.replicate n.toNat xs).flatten

/-- SafeList.__mul__: builds a new SafeList and manually sets its data to
self.data * n and its __approx_len__ to self.__approx_len__ * n, with no
ceiling check anywhere in the body (the only exception-free growing
operation). -/
def SafeList.mul (cfg : Config) (l : SafeList) (n : Int) :
    Except DraconicError SafeList :=
  Except.ok { data := pyListMul l.data n, cached := l.cached * n }

/-- SafeSet: a set subclass carrying __approx_len__. -/
structure SafeSet where
  data : List Value
  cached : Int

/-- SafeSet.__init__ from an iterable: native set construction (insertion
with deduplication) followed by __approx_len__ = approx_len_of(self). -/
def mkSafeSet (xs : List Value) : SafeSet :=
  let d := xs.foldl setInsert []
  { data := d, cached := (containerFreshLen d : Int) }

/-- SafeSet.add: ceiling check with delta 1 before mutation; the cache is
incremented even when the element was already present. -/
def SafeSet.add (cfg : Config) (s : SafeSet) (element : Value) :
    Except DraconicError Unit × SafeSet :=
  if s.cached + 1 > cfg.maxConstLen then
    (Except.error (DraconicError.iterableTooLong "This set is too large"), s)
  else
    (Except.ok (), { data := setInsert s.data element, cached := s.cached + 1 })

/-- SafeSet.update(*s): delta = sum of approx_len_of over the argument
iterables, checked before mutation. -/
def SafeSet.update (cfg : Config) (s : SafeSet) (args : List (List Value)) :
    Except DraconicError Unit × SafeSet :=
  let otherLens : Int := (args.map (fun a => (approx_len_of (Value.list a) : Int))).sum
  if s.cached + otherLens > cfg.maxConstLen then
    (Except.error (DraconicError.iterableTooLong "This set is too large"), s)
  else
    (Except.ok (),
      { data := args.foldl (fun acc a => a.foldl setInsert acc) s.data,
        cached := s.cached + otherLens })

/-- SafeSet.union(*s): non-mutating; the same ceiling check as update, and on
success a brand new SafeSet is built from the native union (so its cache is
recomputed by the fresh-construction traversal); on failure no set is
produced. -/
def SafeSet.union (cfg : Config) (s : SafeSet) (args : List (List Value)) :
    Except DraconicError SafeSet :=
  let otherLens : Int := (args.map (fun a => (approx_len_of (Value.list a) : Int))).sum
  if s.cached + otherLens > cfg.maxConstLen then
    Except.error (DraconicError.iterableTooLong "This set is too large")
  else
    let newData := args.foldl (fun acc a => a.foldl setInsert acc) s.data
    Except.ok { data := newData, cached := (containerFreshLen newData : Int) }

/-- SafeDict: a dict subclass carrying __approx_len__. -/
structure SafeDict where
  data : List (Value × Value)
  cached : Int

/-- SafeDict.__init__ from entries: native dict construction followed by
__approx_len__ = approx_len_of(self). -/
def mkSafeDict (entries : List (Value × Value)) : SafeDict :=
  let d := entries.foldl (fun acc kv => assocSet acc kv.1 kv.2) []
  { data := d, cached := (dictApproxLen d : Int) }

/-- SafeDict.update(other_dict, **kvs): delta = approx_len_of(other_dict) +
approx_len_of(kvs), checked before mutation; on success other_dict is
applied first, then the keyword entries. -/
def SafeDict.update (cfg : Config) (d : SafeDict)
    (other kvs : List (Value × Value)) :
    Except DraconicError Unit × SafeDict :=
  let otherLens : Int := (dictApproxLen other : Int) + (dictApproxLen kvs : Int)
  if d.cached + otherLens > cfg.maxConstLen then
    (Except.error (DraconicError.iterableTooLong "This dict is too large"), d)
  else
    (Except.ok (),
      { data := kvs.foldl (fun acc kv => assocSet acc kv.1 kv.2)
          (other.foldl (fun acc kv => assocSet acc kv.1 kv.2) d.data),
        cached := d.cached + otherLens })

/-- SafeDict.__setitem__: delta = approx_len_of(value) only (the key is not
counted and a replaced value is never subtracted), checked before mutation;
on success the cache grows by the full delta whether or not the key was
already present. -/
def SafeDict.setitem (cfg : Config) (d : SafeDict) (key value : Value) :
    Except DraconicError Unit × SafeDict :=
  let otherLen : Int := approx_len_of value
  if d.cached + otherLen > cfg.maxConstLen then
    (Except.error (DraconicError.iterableTooLong "This dict is too large"), d)
  else
    (Except.ok (), { data := assocSet d.data key value, cached := d.cached + otherLen })

/-- The bounded text type returned by safe_str (a UserString subclass). -/
structure SafeStr where
  data : String
  deriving DecidableEq, Repr

/-- approx_len_of(i) for i = list(seq), the piece list materialised by join:
the list's length hint plus each piece's character count, pieces equal to an
earlier piece (or to the list itself, which never happens) skipped. -/
def strListApproxLen (ps : List String) : Nat :=
  approx_len_of (Value.list (ps.map Value.str))

/-- Native str.join: pieces interleaved with the separator, empty result for
an empty piece list. -/
def pyStrJoin (sep : String) : List String → String
  | [] => ""
  | [x] => x
  | x :: xs => x ++ sep ++ pyStrJoin sep xs

/-- str.join of the bounded text type: i = list(seq); the prospective cost
len(i) * len(self) + approx_len_of(i) is checked against the ceiling before
any new value is produced. -/
def SafeStr.join (cfg : Config) (s : SafeStr) (seq : List String) :
    Except DraconicError SafeStr :=
  if ((seq.length : Int) * (s.data.length : Int) + (strListApproxLen seq : Int)
      > cfg.maxConstLen) then
    Except.error (DraconicError.iterableTooLong "This str is too large")
  else
    Except.ok { data := pyStrJoin s.data seq }

/-- str.encode of the bounded text type: unconditionally disallowed. -/
def SafeStr.encode (cfg : Config) (s : SafeStr) (args : List Value) :
    Except DraconicError Unit :=
  Except.error (DraconicError.featureNotAvailable "This method is not allowed")

/-- str.format of the bounded text type: unconditionally disallowed. -/
def SafeStr.format (cfg : Config) (s : SafeStr) (args : List Value)
    (kwargs : List (String × Value)) : Except DraconicError Unit :=
  Except.error (DraconicError.featureNotAvailable "This method is not allowed")

/-- str.format_map of the bounded text type: unconditionally disallowed. -/
def SafeStr.format_map (cfg : Config) (s : SafeStr)
    (mapping : List (Value × Value)) : Except DraconicError Unit :=
  Except.error (DraconicError.featureNotAvailable "This method is not allowed")

/-- A heap cell: one Python object in an explicit object graph (needed to
represent reference cycles, which the inductive Value type cannot).  Object
identity is the heap id; listC holds the ids of its elements. -/
inductive Cell where
  | intC (n : Int)
  | strC (s : String)
  | listC (elems : List Nat)
  deriving DecidableEq, Repr

/-- An object heap: cell with id i is the i-th entry. -/
abbrev Heap := List Cell

/-- Python == over the heap, with fuel, structurally recursive on fuel so
that concrete computations reduce: the identity shortcut of
PyObject_RichCompareBool first, then structural comparison; list comparison
checks lengths and then elements pairwise with early exit.  none models a
comparison whose recursion does not bottom out (RecursionError on cyclic
graphs). -/
def pyEqF (fuel : Nat) (h : Heap) : Nat → Nat → Option Bool :=
  match fuel with
  | 0 => fun _ _ => none
  | fuel1 + 1 => fun a b =>
    if a = b then some true
    else
      match h.get? a, h.get? b with
      | some (Cell.intC m), some (Cell.intC n) => some (m == n)
      | some (Cell.strC s), some (Cell.strC t) => some (s == t)
      | some (Cell.listC xs), some (Cell.listC ys) =>
        if xs.length = ys.length then
          (xs.zip ys).foldl
            (fun acc p =>
              match acc with
              | some true => pyEqF fuel1 h p.1 p.2
              | other => other)
            (some true)
        else some false
      | some _, some _ => some false
      | _, _ => none

/-- child in visited over the heap: per visited element, identity (same id)
first, then Python ==. -/
def memVisF (fuel : Nat) (h : Heap) (c : Nat) : List Nat → Option Bool
  | [] => some false
  | v :: vs =>
    if c = v then some true
    else
      match pyEqF fuel h c v with
      | some true => some true
      | some false => memVisF fuel h c vs
      | none => none

/-- approx_len_of(obj, visited) over the heap, with fuel, structurally
recursive on fuel: strings return their character count, ints their 0
length hint, a list its length hint plus the for-child loop, which is a
fold threading (accumulated size, visited): a child in visited is skipped,
otherwise its recursive estimate is added and it is appended to visited
after its subtree has been processed.  none models a call whose recursion
does not bottom out. -/
def approxLenF (fuel : Nat) (h : Heap) : Nat → List Nat → Option (Nat × List Nat) :=
  match fuel with
  | 0 => fun _ _ => none
  | fuel1 + 1 => fun obj vis =>
    match h.get? obj with
    | some (Cell.strC s) => some (s.length, vis)
    | some (Cell.intC _) => some (0, vis)
    | some (Cell.listC xs) =>
      (xs.foldl
        (fun acc c =>
          acc.bind (fun szvis =>
            (memVisF fuel1 h c szvis.2).bind (fun m =>
              if m then some szvis
              else
                (approxLenF fuel1 h c szvis.2).map
                  (fun r => (szvis.1 + r.1, r.2 ++ [c])))))
        (some (0, vis))).map
        (fun r => (xs.length + r.1, r.2))
    | none => none

/-- approx_len_of(obj) over the heap with visited=None: strings
short-circuit; otherwise visited is initialised to [obj] and the body
runs. -/
def approxLenTopF (fuel : Nat) (h : Heap) (obj : Nat) : Option Nat :=
  match h.get? obj with
  | some (Cell.strC s) => some s.length
  | _ => (approxLenF fuel h obj [obj]).map Prod.fst

/-- Modelled from the spec: the estimator as the spec words it, with
identity-based visited membership (the same object, not merely an equal
one).  Same recursion as approxLenF except that the membership test
compares heap ids only. -/
def approxLenIdF (fuel : Nat) (h : Heap) : Nat → List Nat → Option (Nat × List Nat) :=
  match fuel with
  | 0 => fun _ _ => none
  | fuel1 + 1 => fun obj vis =>
    match h.get? obj with
    | some (Cell.strC s) => some (s.length, vis)
    | some (Cell.intC _) => some (0, vis)
    | some (Cell.listC xs) =>
      (xs.foldl
        (fun acc c =>
          acc.bind (fun szvis =>
            if szvis.2.contains c then some szvis
            else
              (approxLenIdF fuel1 h c szvis.2).map
                (fun r => (szvis.1 + r.1, r.2 ++ [c]))))
        (some (0, vis))).map
        (fun r => (xs.length + r.1, r.2))
    | none => none

/-- Modelled from the spec: top-level entry of the identity-membership
variant, visited initialised to [obj]. -/
def approxLenIdTopF (fuel : Nat) (h : Heap) (obj : Nat) : Option Nat :=
  match h.get? obj with
  | some (Cell.strC s) => some s.length
  | _ => (approxLenIdF fuel h obj [obj]).map Prod.fst

/-- The adversarial cyclic heap x = [y]; y = [1, z]; z = [2, y]: a reference
cycle between y and z that does not pass through the root x.
Ids: 0 = x, 1 = y, 2 = the int 1, 3 = z, 4 = the int 2. -/
def heapNestedCycle : Heap :=
  [Cell.listC [1], Cell.listC [2, 3], Cell.intC 1, Cell.listC [4, 1], Cell.intC 2]

/-- The heap of a single list s = [s] containing itself directly. -/
def heapSelfCycle : Heap :=
  [Cell.listC [0]]

/-- An acyclic heap r = [a, b]; a = [c]; b = [d] where c and d are two
distinct int objects both equal to 7, so a and b are distinct but == lists.
Ids: 0 = r, 1 = a, 2 = c, 3 = b, 4 = d. -/
def heapEqualTwins : Heap :=
  [Cell.listC [1, 3], Cell.listC [2], Cell.intC 7, Cell.listC [4], Cell.intC 7]

/-- Whether a value is a bare integer: a value whose own estimate is 0
(atomic for the estimator). -/
def Value.isInt : Value → Bool
  | Value.int _ => true
  | _ => false

theorem alChildren_ints_fst (xs : List Value) (vis : List Value)
    (hall : ∀ x ∈ xs, x.isInt = true) : (alChildren xs vis).1 = 0 := by
  induction xs generalizing vis with
  | nil => rfl
  | cons c cs ih =>
    have hc : c.isInt = true := hall c (List.mem_cons_self c cs)
    obtain ⟨n, rfl⟩ : ∃ n, c = Value.int n := by
      cases c with
      | int n => exact ⟨n, rfl⟩
      | str s => simp [Value.isInt] at hc
      | list l => simp [Value.isInt] at hc
    have hrest : ∀ x ∈ cs, x.isInt = true := fun x hx => hall x (List.mem_cons_of_mem _ hx)
    by_cases hm : pyMem (Value.int n) vis
    · simp only [alChildren, hm, if_true]
      exact ih vis hrest
    · simp only [alChildren, hm, if_false, alStep]
      simp [ih (vis ++ [Value.int n]) hrest]

theorem approx_len_of_int_list (xs : List Value)
    (hall : ∀ x ∈ xs, x.isInt = true) :
    approx_len_of (Value.list xs) = xs.length := by
  simp [approx_len_of, alChildren_ints_fst xs _ hall]

/-- C9: for every bounded text value and every argument list, encode, format
and format_map raise FeatureDisallowed (FeatureNotAvailable)
unconditionally, regardless of the ceiling and of the arguments, and never
produce a result value. -/
theorem safeStr_blocked_methods_raise :
    ∀ (cfg : Config) (s : SafeStr) (args : List Value)
      (kwargs : List (String × Value)) (mapping : List (Value × Value)),
      SafeStr.encode cfg s args =
        Except.error (DraconicError.featureNotAvailable "This method is not allowed") ∧
      SafeStr.format cfg s args kwargs =
        Except.error (DraconicError.featureNotAvailable "This method is not allowed") ∧
      SafeStr.format_map cfg s mapping =
        Except.error (DraconicError.featureNotAvailable "This method is not allowed") :=
  fun _ _ _ _ _ => ⟨rfl, rfl, rfl⟩

/-- C10: with ceiling 5 and an initially empty bounded sequence, append(1)
through append(5) each succeed; append(6) raises SizeLimitExceeded
(IterableTooLong) and the sequence's length remains 5. -/
theorem append_scenario_ceiling_five :
    let cfg : Config := ⟨5⟩
    let r1 := SafeList.append cfg (mkSafeList []) (Value.int 1)
    let r2 := SafeList.append cfg r1.2 (Value.int 2)
    let r3 := SafeList.append cfg r2.2 (Value.int 3)
    let r4 := SafeList.append cfg r3.2 (Value.int 4)
    let r5 := SafeList.append cfg r4.2 (Value.int 5)
    let r6 := SafeList.append cfg r5.2 (Value.int 6)
    r1.1 = Except.ok () ∧ r2.1 = Except.ok () ∧ r3.1 = Except.ok () ∧
    r4.1 = Except.ok () ∧ r5.1 = Except.ok () ∧
    r6.1 = Except.error (DraconicError.iterableTooLong "This list is too long") ∧
    r6.2.data.length = 5 :=
  ⟨rfl, rfl, rfl, rfl, rfl, rfl, rfl⟩

/-- C6: replicating a bounded sequence with Cached Size n by any integer k
yields (without raising) a new bounded sequence whose content is the native
repetition of the underlying data and whose Cached Size is exactly n * k,
with no recomputation: the new cache depends only on the old cache, not on
the data. -/
theorem safeList_mul_replicate_law :
    (∀ (cfg : Config) (l : SafeList) (k : Int),
       SafeList.mul cfg l k =
         Except.ok { data := pyListMul l.data k, cached := l.cached * k }) ∧
    (∀ (cfg : Config) (l1 l2 : SafeList) (k : Int), l1.cached = l2.cached →
       ∃ r1 r2, SafeList.mul cfg l1 k = Except.ok r1 ∧
         SafeList.mul cfg l2 k = Except.ok r2 ∧ r1.cached = r2.cached) :=
  ⟨fun _ _ _ => rfl,
   fun cfg l1 l2 k hc =>
     ⟨_, _, rfl, rfl, by simp [SafeList.mul, hc]⟩⟩

/-- Witness for the hypothesis of the replicate law: two sequences with
different data but the same cache replicate to the same cache. -/
theorem safeList_mul_replicate_law_witness :
    ∃ r1 r2, SafeList.mul ⟨7⟩ ⟨[], 5⟩ 3 = Except.ok r1 ∧
      SafeList.mul ⟨7⟩ ⟨[Value.int 0], 5⟩ 3 = Except.ok r2 ∧
      r1.cached = r2.cached :=
  safeList_mul_replicate_law.2 ⟨7⟩ ⟨[], 5⟩ ⟨[Value.int 0], 5⟩ 3 rfl

/-- C7: the replicate operation performs no ceiling check and never raises:
for every config, sequence and integer it returns a value, even in a
concrete case where the resulting Cached Size 500 exceeds the ceiling 5. -/
theorem safeList_mul_unchecked :
    (∀ (cfg : Config) (l : SafeList) (k : Int),
       ∃ l2, SafeList.mul cfg l k = Except.ok l2) ∧
    (∃ l2, SafeList.mul ⟨5⟩ ⟨[Value.int 0], 5⟩ 100 = Except.ok l2 ∧
       l2.cached = 500 ∧ l2.cached > (5 : Int)) :=
  ⟨fun _ _ _ => ⟨_, rfl⟩, ⟨_, rfl, rfl, by decide⟩⟩

/-- C2 counterexample: with ceiling 10 and bounded text "ab", the call
join(["x","y","z"]) does not succeed: the source cost is
len(i)*len(self) + approx_len_of(i) = 3*2 + (3+3) = 12 > 10 (the piece
list's own length hint is part of approx_len_of(i)), so it raises
IterableTooLong, contrary to the claimed cost 9. -/
theorem join_scenario_rejected_at_ceiling_ten :
    SafeStr.join ⟨10⟩ ⟨"ab"⟩ ["x", "y", "z"] =
      Except.error (DraconicError.iterableTooLong "This str is too large") ∧
    ((["x", "y", "z"] : List String).length : Int) * (("ab" : String).length : Int)
        + (strListApproxLen ["x", "y", "z"] : Int) = 12 :=
  ⟨rfl, rfl⟩

/-- C2 amended: the prospective join cost is piece-count x separator length
plus approx_len_of of the materialised piece list (which includes that
list's own length hint); a join whose cost exceeds the ceiling raises
IterableTooLong and produces no new value, one whose cost is within the
ceiling returns the native join; in particular the scenario join succeeds
once the ceiling is at least the true cost 12, producing "xabyabz". -/
theorem join_cost_check_law :
    (∀ (cfg : Config) (s : SafeStr) (ps : List String),
       (((ps.length : Int) * (s.data.length : Int) + (strListApproxLen ps : Int)
           > cfg.maxConstLen) →
          SafeStr.join cfg s ps =
            Except.error (DraconicError.iterableTooLong "This str is too large")) ∧
       (((ps.length : Int) * (s.data.length : Int) + (strListApproxLen ps : Int)
           ≤ cfg.maxConstLen) →
          SafeStr.join cfg s ps = Except.ok ⟨pyStrJoin s.data ps⟩)) ∧
    SafeStr.join ⟨12⟩ ⟨"ab"⟩ ["x", "y", "z"] = Except.ok ⟨"xabyabz"⟩ := by
  constructor
  · intro cfg s ps
    constructor
    · intro hgt
      simp only [SafeStr.join]
      rw [if_pos hgt]
    · intro hle
      simp only [SafeStr.join]
      rw [if_neg (not_lt.mpr hle)]
  · rfl

/-- Witness for the join cost law: a rejected join with cost over the
ceiling and an accepted join with cost within it. -/
theorem join_cost_check_law_witness :
    SafeStr.join ⟨10⟩ ⟨"ab"⟩ ["k", "l", "m"] =
      Except.error (DraconicError.iterableTooLong "This str is too large") ∧
    SafeStr.join ⟨20⟩ ⟨"ab"⟩ ["x", "y"] = Except.ok ⟨pyStrJoin "ab" ["x", "y"]⟩ :=
  ⟨(join_cost_check_law.1 ⟨10⟩ ⟨"ab"⟩ ["k", "l", "m"]).1 (by decide),
   (join_cost_check_law.1 ⟨20⟩ ⟨"ab"⟩ ["x", "y"]).2 (by decide)⟩

/-- C8: single-key assignment on a bounded mapping checks
cached + approx_len_of(value) against the ceiling before mutating, and on
acceptance adds exactly the new value's estimate to the cache — whether or
not the key was already present (pure addition, never subtracting the
replaced value). -/
theorem dict_setitem_delta_is_value_size :
    ∀ (cfg : Config) (d : SafeDict) (k v : Value),
      (d.cached + (approx_len_of v : Int) > cfg.maxConstLen →
         SafeDict.setitem cfg d k v =
           (Except.error (DraconicError.iterableTooLong "This dict is too large"), d)) ∧
      (d.cached + (approx_len_of v : Int) ≤ cfg.maxConstLen →
         SafeDict.setitem cfg d k v =
           (Except.ok (), { data := assocSet d.data k v,
                            cached := d.cached + (approx_len_of v : Int) })) := by
  intro cfg d k v
  constructor
  · intro hgt
    simp only [SafeDict.setitem]
    rw [if_pos hgt]
  · intro hle
    simp only [SafeDict.setitem]
    rw [if_neg (not_lt.mpr hle)]

/-- Witness for the setitem delta law: a rejected assignment leaves the
mapping unchanged, and an accepted overwrite of an existing key adds the
full size of the new value to the cache. -/
theorem dict_setitem_delta_is_value_size_witness :
    SafeDict.setitem ⟨0⟩ ⟨[], 0⟩ (Value.int 1) (Value.str "a") =
      (Except.error (DraconicError.iterableTooLong "This dict is too large"), ⟨[], 0⟩) ∧
    SafeDict.setitem ⟨100⟩ ⟨[(Value.int 1, Value.str "ab")], 5⟩ (Value.int 1) (Value.str "xyz") =
      (Except.ok (), { data := assocSet [(Value.int 1, Value.str "ab")] (Value.int 1) (Value.str "xyz"),
                       cached := (5 : Int) + (approx_len_of (Value.str "xyz") : Int) }) :=
  ⟨(dict_setitem_delta_is_value_size ⟨0⟩ ⟨[], 0⟩ (Value.int 1) (Value.str "a")).1 (by decide),
   (dict_setitem_delta_is_value_size ⟨100⟩ ⟨[(Value.int 1, Value.str "ab")], 5⟩
     (Value.int 1) (Value.str "xyz")).2 (by decide)⟩

/-- C1: every growing operation on a bounded container whose ceiling check
fails leaves the container's contents and Cached Size exactly as before the
call: for append, extend, set add, set update, dict update and single-key
assignment the state returned alongside the raised IterableTooLong is the
input state, and a rejected union (checked against cached plus the summed
argument sizes) returns only the error, producing no new set. -/
theorem rejected_growth_leaves_container_unchanged :
    ∀ cfg : Config,
      (∀ (l : SafeList) (v : Value) (e : DraconicError),
         (SafeList.append cfg l v).1 = Except.error e → (SafeList.append cfg l v).2 = l) ∧
      (∀ (l : SafeList) (xs : List Value) (e : DraconicError),
         (SafeList.extend cfg l xs).1 = Except.error e → (SafeList.extend cfg l xs).2 = l) ∧
      (∀ (s : SafeSet) (v : Value) (e : DraconicError),
         (SafeSet.add cfg s v).1 = Except.error e → (SafeSet.add cfg s v).2 = s) ∧
      (∀ (s : SafeSet) (args : List (List Value)) (e : DraconicError),
         (SafeSet.update cfg s args).1 = Except.error e → (SafeSet.update cfg s args).2 = s) ∧
      (∀ (s : SafeSet) (args : List (List Value)),
         s.cached + (args.map (fun a => (approx_len_of (Value.list a) : Int))).sum
             > cfg.maxConstLen →
         SafeSet.union cfg s args =
           Except.error (DraconicError.iterableTooLong "This set is too large")) ∧
      (∀ (d : SafeDict) (other kvs : List (Value × Value)) (e : DraconicError),
         (SafeDict.update cfg d other kvs).1 = Except.error e →
           (SafeDict.update cfg d other kvs).2 = d) ∧
      (∀ (d : SafeDict) (k v : Value) (e : DraconicError),
         (SafeDict.setitem cfg d k v).1 = Except.error e →
           (SafeDict.setitem cfg d k v).2 = d) := by
  intro cfg
  refine ⟨?_, ?_, ?_, ?_, ?_, ?_, ?_⟩
  · intro l v e h
    by_cases hc : l.cached + 1 > cfg.maxConstLen
    · simp [SafeList.append, hc]
    · simp [SafeList.append, hc] at h
  · intro l xs e h
    by_cases hc : l.cached + (approx_len_of (Value.list xs) : Int) > cfg.maxConstLen
    · simp [SafeList.extend, hc]
    · simp [SafeList.extend, hc] at h
  · intro s v e h
    by_cases hc : s.cached + 1 > cfg.maxConstLen
    · simp [SafeSet.add, hc]
    · simp [SafeSet.add, hc] at h
  · intro s args e h
    by_cases hc : s.cached + (args.map (fun a => (approx_len_of (Value.list a) : Int))).sum
        > cfg.maxConstLen
    · simp [SafeSet.update, hc]
    · simp [SafeSet.update, hc] at h
  · intro s args hgt
    simp only [SafeSet.union]
    rw [if_pos hgt]
  · intro d other kvs e h
    by_cases hc : d.cached + ((dictApproxLen other : Int) + (dictApproxLen kvs : Int))
        > cfg.maxConstLen
    · simp [SafeDict.update, hc]
    · simp [SafeDict.update, hc] at h
  · intro d k v e h
    by_cases hc : d.cached + (approx_len_of v : Int) > cfg.maxConstLen
    · simp [SafeDict.setitem, hc]
    · simp [SafeDict.setitem, hc] at h

/-- Witness for the unchanged-on-rejection guarantee: with ceiling 0 each
growing operation is rejected and the returned state equals the input
state, and a rejected union returns only the error. -/
theorem rejected_growth_leaves_container_unchanged_witness :
    (SafeList.append ⟨0⟩ ⟨[], 0⟩ (Value.int 7)).2 = ⟨[], 0⟩ ∧
    (SafeList.extend ⟨0⟩ ⟨[], 0⟩ [Value.int 7]).2 = ⟨[], 0⟩ ∧
    (SafeSet.add ⟨0⟩ ⟨[], 0⟩ (Value.int 7)).2 = ⟨[], 0⟩ ∧
    (SafeSet.update ⟨0⟩ ⟨[], 0⟩ [[Value.int 7]]).2 = ⟨[], 0⟩ ∧
    SafeSet.union ⟨0⟩ ⟨[Value.int 1], 1⟩ [] =
      Except.error (DraconicError.iterableTooLong "This set is too large") ∧
    (SafeDict.update ⟨0⟩ ⟨[], 0⟩ [(Value.int 1, Value.int 2)] []).2 = ⟨[], 0⟩ ∧
    (SafeDict.setitem ⟨0⟩ ⟨[], 0⟩ (Value.int 1) (Value.str "a")).2 = ⟨[], 0⟩ :=
  ⟨(rejected_growth_leaves_container_unchanged ⟨0⟩).1 ⟨[], 0⟩ (Value.int 7)
     (DraconicError.iterableTooLong "This list is too long") rfl,
   (rejected_growth_leaves_container_unchanged ⟨0⟩).2.1 ⟨[], 0⟩ [Value.int 7]
     (DraconicError.iterableTooLong "This list is too long") rfl,
   (rejected_growth_leaves_container_unchanged ⟨0⟩).2.2.1 ⟨[], 0⟩ (Value.int 7)
     (DraconicError.iterableTooLong "This set is too large") rfl,
   (rejected_growth_leaves_container_unchanged ⟨0⟩).2.2.2.1 ⟨[], 0⟩ [[Value.int 7]]
     (DraconicError.iterableTooLong "This set is too large") rfl,
   (rejected_growth_leaves_container_unchanged ⟨0⟩).2.2.2.2.1 ⟨[Value.int 1], 1⟩ []
     (by decide),
   (rejected_growth_leaves_container_unchanged ⟨0⟩).2.2.2.2.2.1 ⟨[], 0⟩
     [(Value.int 1, Value.int 2)] [] (DraconicError.iterableTooLong "This dict is too large") rfl,
   (rejected_growth_leaves_container_unchanged ⟨0⟩).2.2.2.2.2.2 ⟨[], 0⟩
     (Value.int 1) (Value.str "a") (DraconicError.iterableTooLong "This dict is too large") rfl⟩

/-- C4 counterexample: with ceiling 100, appending the two-character string
"ab" to an empty bounded sequence is accepted and sets Cached Size to 1
(append always adds delta 1), while a full traversal of the resulting
contents computes 3 (length hint 1 plus the string's character count 2), so
Cached Size does not equal the full-traversal estimate after this accepted
append. -/
theorem cached_size_diverges_from_traversal :
    (SafeList.append ⟨100⟩ (mkSafeList []) (Value.str "ab")).1 = Except.ok () ∧
    (SafeList.append ⟨100⟩ (mkSafeList []) (Value.str "ab")).2.cached = 1 ∧
    approx_len_of (Value.list (SafeList.append ⟨100⟩ (mkSafeList []) (Value.str "ab")).2.data) = 3 ∧
    (SafeList.append ⟨100⟩ (mkSafeList []) (Value.str "ab")).2.cached ≠
      (approx_len_of (Value.list (SafeList.append ⟨100⟩ (mkSafeList []) (Value.str "ab")).2.data) : Int) :=
  ⟨rfl, rfl, rfl, by decide⟩

/-- C4 amended: Cached Size equals the fresh full-traversal estimate at
construction, and stays equal to it across accepted append/extend calls for
sequences of atomic elements (bare integers, whose own estimate is 0);
append adds exactly 1 regardless of the appended element's own estimate, so
for an element with a positive estimate the cache undercounts the
traversal. -/
theorem cached_size_exact_for_atomic_sequences :
    (∀ xs : List Value, (mkSafeList xs).cached = (approx_len_of (Value.list xs) : Int)) ∧
    (∀ (cfg : Config) (l : SafeList) (v : Value),
       (∀ x ∈ l.data, x.isInt = true) → v.isInt = true →
       l.cached = (approx_len_of (Value.list l.data) : Int) →
       (SafeList.append cfg l v).1 = Except.ok () →
       (SafeList.append cfg l v).2.cached =
         (approx_len_of (Value.list (SafeList.append cfg l v).2.data) : Int)) ∧
    (∀ (cfg : Config) (l : SafeList) (ys : List Value),
       (∀ x ∈ l.data, x.isInt = true) → (∀ y ∈ ys, y.isInt = true) →
       l.cached = (approx_len_of (Value.list l.data) : Int) →
       (SafeList.extend cfg l ys).1 = Except.ok () →
       (SafeList.extend cfg l ys).2.cached =
         (approx_len_of (Value.list (SafeList.extend cfg l ys).2.data) : Int)) := by
  refine ⟨fun xs => rfl, ?_, ?_⟩
  · intro cfg l v hall hv hinv hok
    by_cases hc : l.cached + 1 > cfg.maxConstLen
    · simp [SafeList.append, hc] at hok
    · have h2 : ∀ x ∈ l.data ++ [v], x.isInt = true := by
        intro x hx
        rcases List.mem_append.mp hx with hx1 | hx1
        · exact hall x hx1
        · rw [List.mem_singleton.mp hx1]; exact hv
      have hdata : (SafeList.append cfg l v).2.data = l.data ++ [v] := by
        simp [SafeList.append, hc]
      have hcached : (SafeList.append cfg l v).2.cached = l.cached + 1 := by
        simp [SafeList.append, hc]
      rw [hcached, hdata, approx_len_of_int_list _ h2, hinv,
        approx_len_of_int_list _ hall]
      simp [List.length_append]
  · intro cfg l ys hall hys hinv hok
    by_cases hc : l.cached + (approx_len_of (Value.list ys) : Int) > cfg.maxConstLen
    · simp [SafeList.extend, hc] at hok
    · have h2 : ∀ x ∈ l.data ++ ys, x.isInt = true := by
        intro x hx
        rcases List.mem_append.mp hx with hx1 | hx1
        · exact hall x hx1
        · exact hys x hx1
      have hdata : (SafeList.extend cfg l ys).2.data = l.data ++ ys := by
        simp [SafeList.extend, hc]
      have hcached : (SafeList.extend cfg l ys).2.cached =
          l.cached + (approx_len_of (Value.list ys) : Int) := by
        simp [SafeList.extend, hc]
      rw [hcached, hdata, approx_len_of_int_list _ h2, hinv,
        approx_len_of_int_list _ hall, approx_len_of_int_list _ hys]
      simp [List.length_append]
  

/-- Witness for the atomic-sequence cache invariant: an accepted append and
an accepted extend of integer elements keep Cached Size equal to the
full-traversal estimate. -/
theorem cached_size_exact_for_atomic_sequences_witness :
    (SafeList.append ⟨100⟩ ⟨[Value.int 1], 1⟩ (Value.int 2)).2.cached =
      (approx_len_of (Value.list (SafeList.append ⟨100⟩ ⟨[Value.int 1], 1⟩ (Value.int 2)).2.data) : Int) ∧
    (SafeList.extend ⟨100⟩ ⟨[Value.int 1], 1⟩ [Value.int 2, Value.int 3]).2.cached =
      (approx_len_of (Value.list (SafeList.extend ⟨100⟩ ⟨[Value.int 1], 1⟩ [Value.int 2, Value.int 3]).2.data) : Int) :=
  ⟨cached_size_exact_for_atomic_sequences.2.1 ⟨100⟩ ⟨[Value.int 1], 1⟩ (Value.int 2)
     (by decide) (by decide) (by decide) rfl,
   cached_size_exact_for_atomic_sequences.2.2 ⟨100⟩ ⟨[Value.int 1], 1⟩
     [Value.int 2, Value.int 3] (by decide) (by decide) (by decide) rfl⟩

/-- C5 counterexample: on the acyclic heap r = [a, b] with a = [c], b = [d],
c and d distinct int objects both equal to 7, the source estimator returns
3 (b is skipped because it is == to the already-visited a), while the
identity-membership estimator the claim describes returns 4 (b, a distinct
object, contributes its own estimate 1): the two disagree, so the skip test
is not identity-based. -/
theorem visited_membership_not_identity_based :
    approxLenTopF 20 heapEqualTwins 0 = some 3 ∧
    approxLenIdTopF 20 heapEqualTwins 0 = some 4 ∧
    approxLenTopF 20 heapEqualTwins 0 ≠ approxLenIdTopF 20 heapEqualTwins 0 :=
  ⟨by decide, by decide, by decide⟩

/-- C5 amended: the estimator skips exactly those children whose Python
membership test on visited succeeds, and that test is identity-or-equality
per visited element: a child identical to a visited entry is a member, a
child == to a visited entry is a member, a member child contributes only
the length hint (nothing recursive), and a non-member child contributes its
full recursive estimate and is appended to visited — so a distinct but
equal child is also skipped, while an object reachable by multiple paths
contributes once. -/
theorem visited_membership_equality_semantics :
    (∀ (fuel : Nat) (h : Heap) (c : Nat) (rest : List Nat),
        memVisF fuel h c (c :: rest) = some true) ∧
    (∀ (fuel : Nat) (h : Heap) (c v : Nat) (rest : List Nat),
        pyEqF fuel h c v = some true → memVisF fuel h c (v :: rest) = some true) ∧
    (∀ (fuel : Nat) (h : Heap) (obj c : Nat) (vis : List Nat),
        h.get? obj = some (Cell.listC [c]) →
        memVisF fuel h c vis = some true →
        approxLenF (fuel + 1) h obj vis = some (1, vis)) ∧
    (∀ (fuel : Nat) (h : Heap) (obj c : Nat) (vis : List Nat),
        h.get? obj = some (Cell.listC [c]) →
        memVisF fuel h c vis = some false →
        approxLenF (fuel + 1) h obj vis =
          (approxLenF fuel h c vis).map (fun r => (1 + r.1, r.2 ++ [c]))) := by
  refine ⟨?_, ?_, ?_, ?_⟩
  · intro fuel h c rest
    simp [memVisF]
  · intro fuel h c v rest hpe
    by_cases hcv : c = v
    · simp [memVisF, hcv]
    · simp [memVisF, hcv, hpe]
  · intro fuel h obj c vis hget hmem
    rw [List.get?_eq_getElem?] at hget
    simp [approxLenF, hget, hmem]
  · intro fuel h obj c vis hget hmem
    rw [List.get?_eq_getElem?] at hget
    cases hres : approxLenF fuel h c vis with
    | none => simp [approxLenF, hget, hmem, hres]
    | some r => simp [approxLenF, hget, hmem, hres]

/-- Witness for the membership semantics: on the equal-twins heap, identity
membership, equality membership (b == a), a skipped visited child
contributing only the hint, and an unvisited child contributing its
recursive estimate. -/
theorem visited_membership_equality_semantics_witness :
    memVisF 5 heapEqualTwins 2 [2] = some true ∧
    memVisF 5 heapEqualTwins 3 [1] = some true ∧
    approxLenF 6 heapEqualTwins 1 [0, 2] = some (1, [0, 2]) ∧
    approxLenF 6 heapEqualTwins 3 [0] =
      (approxLenF 5 heapEqualTwins 4 [0]).map (fun r => (1 + r.1, r.2 ++ [4])) :=
  ⟨visited_membership_equality_semantics.1 5 heapEqualTwins 2 [],
   visited_membership_equality_semantics.2.1 5 heapEqualTwins 3 1 [] (by decide),
   visited_membership_equality_semantics.2.2.1 5 heapEqualTwins 1 2 [0, 2]
     (by decide) (by decide),
   visited_membership_equality_semantics.2.2.2 5 heapEqualTwins 3 4 [0]
     (by decide) (by decide)⟩

theorem heapNC_cycle_none :
    ∀ f, approxLenF f heapNestedCycle 1 [0, 2, 4] = none ∧
         approxLenF f heapNestedCycle 3 [0, 2, 4] = none := by
  intro f
  induction f with
  | zero => exact ⟨rfl, rfl⟩
  | succ g ih =>
    cases g with
    | zero => exact ⟨rfl, rfl⟩
    | succ k =>
      constructor
      · rw [show approxLenF (k + 1 + 1) heapNestedCycle 1 [0, 2, 4] =
              ((approxLenF (k + 1) heapNestedCycle 3 [0, 2, 4]).map
                (fun r => (0 + r.1, r.2 ++ [3]))).map (fun r => (2 + r.1, r.2))
            from rfl, ih.2]
        rfl
      · rw [show approxLenF (k + 1 + 1) heapNestedCycle 3 [0, 2, 4] =
              ((approxLenF (k + 1) heapNestedCycle 1 [0, 2, 4]).map
                (fun r => (0 + r.1, r.2 ++ [1]))).map (fun r => (2 + r.1, r.2))
            from rfl, ih.1]
        rfl

theorem heapNC_z_visited02_none :
    ∀ f, approxLenF f heapNestedCycle 3 [0, 2] = none := by
  intro f
  rcases f with _ | f1
  · rfl
  rcases f1 with _ | k
  · rfl
  rw [show approxLenF (k + 1 + 1) heapNestedCycle 3 [0, 2] =
        ((approxLenF (k + 1) heapNestedCycle 1 [0, 2, 4]).map
          (fun r => (0 + r.1, r.2 ++ [1]))).map (fun r => (2 + r.1, r.2))
      from rfl, (heapNC_cycle_none (k + 1)).1]
  rfl

theorem heapNC_y_visited0_none :
    ∀ f, approxLenF f heapNestedCycle 1 [0] = none := by
  intro f
  rcases f with _ | f1
  · rfl
  rcases f1 with _ | k
  · rfl
  rw [show approxLenF (k + 1 + 1) heapNestedCycle 1 [0] =
        ((approxLenF (k + 1) heapNestedCycle 3 [0, 2]).map
          (fun r => (0 + r.1, r.2 ++ [3]))).map (fun r => (2 + r.1, r.2))
      from rfl, heapNC_z_visited02_none (k + 1)]
  rfl

/-- C3: the size estimator does not terminate on every cyclic value: on the
heap x = [y], y = [1, z], z = [2, y] (a reference cycle not passing through
the root) the computation returns no result at any fuel, because children
are appended to visited only after their whole subtree is processed, so the
y/z cycle is re-entered forever (in CPython, unbounded recursion ending in
RecursionError); the claim's specific example, a sequence containing itself
directly at the root, does terminate with the finite estimate 1, counting
the one distinct reachable object once. -/
theorem approx_len_of_diverges_on_nested_cycle :
    (∀ fuel, approxLenTopF fuel heapNestedCycle 0 = none) ∧
    approxLenTopF 9 heapSelfCycle 0 = some 1 := by
  constructor
  · intro fuel
    rcases fuel with _ | f1
    · rfl
    rcases f1 with _ | k
    · rfl
    rw [show approxLenTopF (k + 1 + 1) heapNestedCycle 0 =
          (((approxLenF (k + 1) heapNestedCycle 1 [0]).map
            (fun r => (0 + r.1, r.2 ++ [1]))).map
              (fun r => (1 + r.1, r.2))).map Prod.fst
        from rfl, heapNC_y_visited0_none (k + 1)]
    rfl
  · rfl
